import Mathlib

/-!
A verification development for the pack/garbage-collection engine of a
relational-backed object storage (`relstorage/adapters/common.py` and
`relstorage/adapters/oracle.py`).

The relational tables are embedded as lists of row structures; each SQL
statement of the source becomes a list transformation (filter / map / sort),
and the iterative reachability-closure loop becomes fuel-bounded recursion.
-/

namespace RelStorage

/-! ## Data model (§3 of the schema)

oids (`zoid`) are unsigned, tids are signed integers; `state` is an opaque
byte sequence or NULL; `keep_tid` is nullable. -/

/-- One row of the `transaction` table. -/
structure TxnRow where
  tid : Int
  username : String
  description : String
  ext : String
  packed : Bool
  deriving DecidableEq, Repr

/-- One row of the `object_state` table. -/
structure StateRow where
  zoid : Nat
  tid : Int
  prev_tid : Int
  state : Option (List Nat)
  deriving DecidableEq, Repr

/-- One row of the `current_object` table. -/
structure CurRow where
  zoid : Nat
  tid : Int
  deriving DecidableEq, Repr

/-- One row of the `object_ref` table: `(zoid, tid, to_zoid)`. -/
structure RefRow where
  zoid : Nat
  tid : Int
  to_zoid : Nat
  deriving DecidableEq, Repr

/-- One row of the `object_refs_added` table. -/
structure RefsAddedRow where
  tid : Int
  deriving DecidableEq, Repr

/-- One row of the `pack_object` working-set table. -/
structure PackObjRow where
  zoid : Nat
  keep : Bool
  keep_tid : Option Int
  deriving DecidableEq, Repr

/-- The database state visible to the pack engine. -/
structure DB where
  txn : List TxnRow
  object_state : List StateRow
  current_object : List CurRow
  object_ref : List RefRow
  object_refs_added : List RefsAddedRow
  pack_object : List PackObjRow
  deriving DecidableEq, Repr

/-! ## SQL building blocks -/

/-- `ORDER BY key DESC` over a list of rows (stable sort, descending on the
integer key). -/
def sortDescBy {α : Type} (key : α → Int) (l : List α) : List α :=
  l.insertionSort (fun a b => key b ≤ key a)

/-- The `select_keep_tid` correlated subquery:
`SELECT tid FROM object_state WHERE zoid = Z AND tid > 0 AND tid <= pack_tid
ORDER BY tid DESC LIMIT 1`. -/
def selectKeepTid (os : List StateRow) (z : Nat) (pack_tid : Int) : Option Int :=
  ((sortDescBy id ((os.filter
      (fun r => r.zoid == z && 0 < r.tid && r.tid ≤ pack_tid)).map (·.tid)))).head?

/-- `choose_pack_transaction`: `SELECT tid FROM transaction WHERE tid > 0 AND
tid <= %(tid)s AND packed = FALSE ORDER BY tid DESC LIMIT 1`; an empty result
means there is nothing to pack (`None`). -/
def choose_pack_transaction (db : DB) (pack_point : Int) : Option Int :=
  (sortDescBy id ((db.txn.filter
      (fun t => 0 < t.tid && t.tid ≤ pack_point && !t.packed)).map (·.tid))).head?

/-! ## Generic facts about descending selection -/

theorem sortDescBy_perm {α : Type} (key : α → Int) (l : List α) :
    (sortDescBy key l).Perm l :=
  List.perm_insertionSort _ l

theorem sortDescBy_sorted {α : Type} (key : α → Int) (l : List α) :
    (sortDescBy key l).Pairwise (fun a b => key b ≤ key a) := by
  haveI htot : IsTotal α (fun a b => key b ≤ key a) :=
    ⟨fun a b => le_total (key b) (key a)⟩
  haveI htrans : IsTrans α (fun a b => key b ≤ key a) :=
    ⟨fun _ _ _ hab hbc => le_trans hbc hab⟩
  exact List.sorted_insertionSort _ l

/-- The head of a descending sort is a maximum of the underlying list. -/
theorem head?_sortDescBy_int (l : List Int) {t : Int} :
    (sortDescBy id l).head? = some t → t ∈ l ∧ ∀ u ∈ l, u ≤ t := by
  intro h
  have hperm := sortDescBy_perm id l
  have hsort := sortDescBy_sorted id l
  cases hl : sortDescBy id l with
  | nil => simp [hl] at h
  | cons a rest =>
    rw [hl] at h hperm hsort
    simp only [List.head?_cons, Option.some.injEq] at h
    rw [← h]
    constructor
    · exact hperm.mem_iff.mp (List.mem_cons_self _ _)
    · intro u hu
      have hu' : u ∈ a :: rest := hperm.mem_iff.mpr hu
      rcases List.mem_cons.mp hu' with rfl | hmem
      · exact le_refl _
      · exact (List.pairwise_cons.mp hsort).1 u hmem

theorem head?_sortDescBy_int_none (l : List Int) :
    (sortDescBy id l).head? = none ↔ l = [] := by
  have hperm := sortDescBy_perm id l
  constructor
  · intro h
    have hnil : sortDescBy id l = [] := List.head?_eq_none_iff.mp h
    rw [hnil] at hperm
    exact hperm.symm.eq_nil
  · intro h
    subst h
    have : sortDescBy id ([] : List Int) = [] := hperm.eq_nil
    simp [this]

/-! ## Pack execution (`Adapter.pack`) -/

/-- `zoid IN (SELECT zoid FROM pack_object WHERE keep = FALSE)`. -/
def delKeepFalse (po : List PackObjRow) (z : Nat) : Bool :=
  po.any (fun p => p.zoid == z && !p.keep)

/-- The history-cut condition of pack:
`zoid IN (SELECT zoid FROM pack_object WHERE keep = TRUE) AND
tid < (SELECT keep_tid FROM pack_object WHERE zoid = T.zoid)`.
A NULL `keep_tid` makes the comparison false (SQL three-valued logic). -/
def cutHistory (po : List PackObjRow) (z : Nat) (t : Int) : Bool :=
  po.any (fun p => p.zoid == z && p.keep) &&
  (match (po.find? (fun p => p.zoid == z)).bind PackObjRow.keep_tid with
   | some k => decide (t < k)
   | none => false)

/-- The table-loop of `Adapter.pack`: for each of `object_ref`,
`current_object`, `object_state` in that order, delete the rows whose zoid
has `keep = FALSE`, and — for `object_ref` and `object_state` only, never
`current_object` — also cut history strictly before `keep_tid`. -/
def packDeletes (db : DB) : DB :=
  let po := db.pack_object
  let oref1 := db.object_ref.filter (fun r => !delKeepFalse po r.zoid)
  let oref2 := oref1.filter (fun r => !cutHistory po r.zoid r.tid)
  let cur1 := db.current_object.filter (fun r => !delKeepFalse po r.zoid)
  let os1 := db.object_state.filter (fun r => !delKeepFalse po r.zoid)
  let os2 := os1.filter (fun r => !cutHistory po r.zoid r.tid)
  { db with object_ref := oref2, current_object := cur1, object_state := os2 }

/-- `UPDATE object_state SET prev_tid = 0 WHERE tid <= pack_tid AND
prev_tid != 0`, applied row by row. -/
def terminatePrevTidRow (pack_tid : Int) (r : StateRow) : StateRow :=
  if r.tid ≤ pack_tid && r.prev_tid != 0 then { r with prev_tid := 0 } else r

/-- `Adapter.pack`: the table-loop deletes, then the final script —
terminate prev_tid chains, clean `object_refs_added`, delete unused
transactions, mark remaining packable transactions packed, truncate
`pack_object`. -/
def pack (db : DB) (pack_tid : Int) : DB :=
  let db1 := packDeletes db
  let os2 := db1.object_state.map (terminatePrevTidRow pack_tid)
  let ora2 := db1.object_refs_added.filter (fun a =>
      !(0 < a.tid && a.tid ≤ pack_tid && !(os2.any (fun o => o.tid == a.tid))))
  let txn2 := db1.txn.filter (fun t =>
      !(0 < t.tid && t.tid ≤ pack_tid && !(os2.any (fun o => o.tid == t.tid))))
  let txn3 := txn2.map (fun t =>
      if 0 < t.tid && t.tid ≤ pack_tid && !t.packed then { t with packed := true } else t)
  { db1 with txn := txn3, object_state := os2, object_refs_added := ora2,
             pack_object := [] }

/-- In a `pack_object` table with no duplicate zoids, `find?` on a member's
zoid returns exactly that member. -/
theorem find?_zoid_eq_of_nodup {po : List PackObjRow}
    (hnd : (po.map PackObjRow.zoid).Nodup) {p : PackObjRow} (hp : p ∈ po) :
    po.find? (fun q => q.zoid == p.zoid) = some p := by
  induction po with
  | nil => cases hp
  | cons a rest ih =>
    simp only [List.map_cons, List.nodup_cons] at hnd
    rcases List.mem_cons.mp hp with rfl | hmemr
    · exact List.find?_cons_of_pos _ (by simp)
    · have hne : (a.zoid == p.zoid) = false := by
        simp only [beq_eq_false_iff_ne, ne_eq]
        intro he
        exact hnd.1 (he ▸ List.mem_map_of_mem PackObjRow.zoid hmemr)
      rw [List.find?_cons_of_neg _ (by simp [hne])]
      exact ih hnd.2 hmemr

/-- Two rows of a duplicate-free `pack_object` with the same zoid coincide. -/
theorem pack_object_unique {po : List PackObjRow}
    (hnd : (po.map PackObjRow.zoid).Nodup) {p q : PackObjRow}
    (hp : p ∈ po) (hq : q ∈ po) (hz : p.zoid = q.zoid) : p = q := by
  have h1 := find?_zoid_eq_of_nodup hnd hp
  have h2 := find?_zoid_eq_of_nodup hnd hq
  rw [hz] at h1
  rw [h1] at h2
  exact Option.some.inj h2

/-- The head of a descending sort exists at a maximum whenever the claimed
value is a member that dominates the list. -/
theorem head?_sortDescBy_int_of_max (l : List Int) {t : Int}
    (hmem : t ∈ l) (hmax : ∀ u ∈ l, u ≤ t) :
    (sortDescBy id l).head? = some t := by
  cases hh : (sortDescBy id l).head? with
  | none =>
    have : l = [] := (head?_sortDescBy_int_none l).mp hh
    rw [this] at hmem
    exact absurd hmem (List.not_mem_nil t)
  | some a =>
    obtain ⟨hamem, hamax⟩ := head?_sortDescBy_int l hh
    have h1 : a ≤ t := hmax a hamem
    have h2 : t ≤ a := hamax t hmem
    rw [le_antisymm h1 h2]

/-- C5: `choose_pack_transaction(bound)` returns the largest tid `t` in the
`transaction` table such that `0 < t ≤ bound` and `packed = FALSE`, and
returns `none` ("nothing to pack") exactly when no such tid exists. -/
theorem choose_pack_transaction_spec (db : DB) (bound : Int) :
    (∀ t : Int, choose_pack_transaction db bound = some t ↔
        ((∃ r ∈ db.txn, r.tid = t ∧ 0 < t ∧ t ≤ bound ∧ r.packed = false) ∧
         ∀ r ∈ db.txn, 0 < r.tid → r.tid ≤ bound → r.packed = false → r.tid ≤ t)) ∧
    (choose_pack_transaction db bound = none ↔
        ∀ r ∈ db.txn, ¬(0 < r.tid ∧ r.tid ≤ bound ∧ r.packed = false)) := by
  have hmem : ∀ t : Int,
      t ∈ (db.txn.filter (fun r => 0 < r.tid && r.tid ≤ bound && !r.packed)).map
        (·.tid) ↔
      ∃ r ∈ db.txn, r.tid = t ∧ 0 < t ∧ t ≤ bound ∧ r.packed = false := by
    intro t
    simp only [List.mem_map, List.mem_filter, Bool.and_eq_true, decide_eq_true_eq,
      Bool.not_eq_true']
    constructor
    · rintro ⟨r, ⟨⟨hr, ⟨h1, h2⟩, h3⟩, rfl⟩⟩
      exact ⟨r, hr, rfl, h1, h2, h3⟩
    · rintro ⟨r, hr, rfl, h1, h2, h3⟩
      exact ⟨r, ⟨hr, ⟨h1, h2⟩, h3⟩, rfl⟩
  constructor
  · intro t
    constructor
    · intro h
      obtain ⟨ht, hall⟩ := head?_sortDescBy_int _ h
      refine ⟨(hmem t).mp ht, ?_⟩
      intro r hr h1 h2 h3
      exact hall r.tid ((hmem r.tid).mpr ⟨r, hr, rfl, h1, h2, h3⟩)
    · rintro ⟨hex, hall⟩
      refine head?_sortDescBy_int_of_max _ ((hmem t).mpr hex) ?_
      intro u hu
      obtain ⟨r, hr, rfl, h1, h2, h3⟩ := (hmem u).mp hu
      exact hall r hr h1 h2 h3
  · rw [choose_pack_transaction, head?_sortDescBy_int_none]
    constructor
    · intro h r hr ⟨h1, h2, h3⟩
      have : r.tid ∈ (db.txn.filter
          (fun r => 0 < r.tid && r.tid ≤ bound && !r.packed)).map (·.tid) :=
        (hmem r.tid).mpr ⟨r, hr, rfl, h1, h2, by simpa using h3⟩
      rw [h] at this
      exact absurd this (List.not_mem_nil _)
    · intro h
      by_contra hne
      obtain ⟨u, hu⟩ := List.exists_mem_of_ne_nil _ hne
      obtain ⟨r, hr, rfl, h1, h2, h3⟩ := (hmem u).mp hu
      exact h r hr ⟨h1, h2, by simpa using h3⟩

/-- C1: pack's table loop deletes from `object_ref`, `current_object` and
`object_state` every row whose zoid has `keep = FALSE` in `pack_object`; for
`object_ref` and `object_state` only (never `current_object`) it also deletes
rows whose zoid has `keep = TRUE` and whose tid is strictly below that zoid's
`keep_tid`. Consequently, for an oid recorded as `(oid, keep = TRUE,
keep_tid = k)` in a duplicate-free `pack_object`, no `object_state` row of
that oid with `tid < k` survives, and any row at `tid = k` survives. -/
theorem pack_deletes_spec (db : DB) (oid : Nat) (k : Int)
    (hnd : (db.pack_object.map PackObjRow.zoid).Nodup)
    (hmem : (⟨oid, true, some k⟩ : PackObjRow) ∈ db.pack_object) :
    (∀ r : RefRow, r ∈ (packDeletes db).object_ref ↔
        r ∈ db.object_ref ∧ delKeepFalse db.pack_object r.zoid = false ∧
        cutHistory db.pack_object r.zoid r.tid = false) ∧
    (∀ r : CurRow, r ∈ (packDeletes db).current_object ↔
        r ∈ db.current_object ∧ delKeepFalse db.pack_object r.zoid = false) ∧
    (∀ r : StateRow, r ∈ (packDeletes db).object_state ↔
        r ∈ db.object_state ∧ delKeepFalse db.pack_object r.zoid = false ∧
        cutHistory db.pack_object r.zoid r.tid = false) ∧
    (∀ r ∈ (packDeletes db).object_state, r.zoid = oid → ¬ r.tid < k) ∧
    (∀ r ∈ db.object_state, r.zoid = oid → r.tid = k →
        r ∈ (packDeletes db).object_state) := by
  have hfind : db.pack_object.find? (fun q => q.zoid == oid) =
      some ⟨oid, true, some k⟩ := by
    have h := find?_zoid_eq_of_nodup hnd hmem
    simpa using h
  have hcut_eval : ∀ t : Int, cutHistory db.pack_object oid t = decide (t < k) := by
    intro t
    have hany : db.pack_object.any (fun p => p.zoid == oid && p.keep) = true :=
      List.any_eq_true.mpr ⟨⟨oid, true, some k⟩, hmem, by simp⟩
    unfold cutHistory
    rw [hfind, hany]
    simp
  have hdf_false : delKeepFalse db.pack_object oid = false := by
    unfold delKeepFalse
    simp only [List.any_eq_false, Bool.and_eq_true, beq_iff_eq, Bool.not_eq_true',
      not_and]
    intro p hp hz
    have hpq : p = ⟨oid, true, some k⟩ :=
      pack_object_unique hnd hp hmem (by simpa using hz)
    rw [hpq]
    simp
  have hosmem : ∀ r : StateRow, r ∈ (packDeletes db).object_state ↔
      r ∈ db.object_state ∧ delKeepFalse db.pack_object r.zoid = false ∧
      cutHistory db.pack_object r.zoid r.tid = false := by
    intro r
    simp only [packDeletes, List.mem_filter, Bool.not_eq_true']
    tauto
  refine ⟨?_, ?_, hosmem, ?_, ?_⟩
  · intro r
    simp only [packDeletes, List.mem_filter, Bool.not_eq_true']
    tauto
  · intro r
    simp only [packDeletes, List.mem_filter, Bool.not_eq_true']
  · intro r hr hz
    obtain ⟨_, _, hcut⟩ := (hosmem r).mp hr
    rw [hz, hcut_eval r.tid] at hcut
    simpa using hcut
  · intro r hr hz htid
    refine (hosmem r).mpr ⟨hr, ?_, ?_⟩
    · rw [hz]; exact hdf_false
    · rw [hz, hcut_eval r.tid, htid]
      simp

/-- A small example database used to instantiate theorems with hypotheses. -/
def exDB : DB where
  txn := [⟨5, "u", "d", "e", false⟩, ⟨10, "u", "d", "e", false⟩]
  object_state := [⟨1, 5, 0, none⟩, ⟨1, 10, 5, some [7]⟩]
  current_object := [⟨1, 10⟩]
  object_ref := []
  object_refs_added := []
  pack_object := [⟨1, true, some 10⟩, ⟨2, false, none⟩]

/-- A concrete instantiation of `pack_deletes_spec`: on a small database the
retained revision at `keep_tid = 10` survives the delete phase. -/
theorem pack_deletes_spec_witness :
    (⟨1, 10, 5, some [7]⟩ : StateRow) ∈ (packDeletes exDB).object_state :=
  (pack_deletes_spec exDB 1 10 (by decide) (by decide)).2.2.2.2
    ⟨1, 10, 5, some [7]⟩ (by decide) rfl rfl

/-- C7: the back-link termination step of pack maps each row surviving the
delete phase to an identical row except that `prev_tid` becomes 0 exactly
when `tid ≤ pack_tid` and `prev_tid ≠ 0` (regardless of whether the
predecessor was deleted); rows with `tid > pack_tid` keep their `prev_tid`,
and no later statement of pack touches `object_state`. -/
theorem pack_prev_tid_frame (db : DB) (pack_tid : Int) :
    List.Forall₂ (fun old new : StateRow =>
        new.zoid = old.zoid ∧ new.tid = old.tid ∧ new.state = old.state ∧
        new.prev_tid =
          (if old.tid ≤ pack_tid ∧ old.prev_tid ≠ 0 then 0 else old.prev_tid))
      (packDeletes db).object_state (pack db pack_tid).object_state := by
  have hos : (pack db pack_tid).object_state =
      (packDeletes db).object_state.map (terminatePrevTidRow pack_tid) := rfl
  rw [hos, List.forall₂_map_right_iff, List.forall₂_same]
  intro r _
  simp only [terminatePrevTidRow]
  by_cases h1 : r.tid ≤ pack_tid
  · by_cases h2 : r.prev_tid = 0
    · simp [h1, h2]
    · simp [h1, h2]
  · simp [h1]

/-! ## Pre-pack without garbage collection -/

/-- `_pre_pack_without_gc`: truncate `pack_object`, insert
`(zoid, TRUE)` for every distinct zoid of `object_state` with
`tid <= pack_tid`, then `UPDATE pack_object SET keep_tid = (select_keep_tid)`
on every row. -/
def prePackWithoutGc (db : DB) (pack_tid : Int) : List PackObjRow :=
  let zoids := ((db.object_state.filter
      (fun r => r.tid ≤ pack_tid)).map StateRow.zoid).dedup
  let po0 := zoids.map (fun z => (⟨z, true, none⟩ : PackObjRow))
  po0.map (fun p => { p with keep_tid := selectKeepTid db.object_state p.zoid pack_tid })

/-- Membership in the tid-candidate list of `select_keep_tid`. -/
theorem selectKeepTid_mem_iff (os : List StateRow) (z : Nat) (pack_tid : Int)
    (t : Int) :
    t ∈ (os.filter (fun r => r.zoid == z && 0 < r.tid && r.tid ≤ pack_tid)).map
        (·.tid) ↔
    ∃ r ∈ os, r.zoid = z ∧ r.tid = t ∧ 0 < t ∧ t ≤ pack_tid := by
  simp only [List.mem_map, List.mem_filter, Bool.and_eq_true, beq_iff_eq,
    decide_eq_true_eq]
  constructor
  · rintro ⟨r, ⟨hr, ⟨hz, h1⟩, h2⟩, rfl⟩
    exact ⟨r, hr, hz, rfl, h1, h2⟩
  · rintro ⟨r, hr, hz, rfl, h1, h2⟩
    exact ⟨r, ⟨hr, ⟨hz, h1⟩, h2⟩, rfl⟩

/-- `select_keep_tid` returns the greatest tid of `object_state` for the
given zoid with `0 < tid ≤ pack_tid`, provided such a revision exists. -/
theorem selectKeepTid_spec (os : List StateRow) (z : Nat) (pack_tid : Int)
    (hex : ∃ r ∈ os, r.zoid = z ∧ 0 < r.tid ∧ r.tid ≤ pack_tid) :
    ∃ k : Int, selectKeepTid os z pack_tid = some k ∧
      (∃ r ∈ os, r.zoid = z ∧ r.tid = k ∧ 0 < k ∧ k ≤ pack_tid) ∧
      ∀ r ∈ os, r.zoid = z → 0 < r.tid → r.tid ≤ pack_tid → r.tid ≤ k := by
  obtain ⟨r0, hr0, hz0, hp0, hb0⟩ := hex
  have hne : (os.filter (fun r => r.zoid == z && 0 < r.tid && r.tid ≤ pack_tid)).map
      (fun r => r.tid) ≠ [] := by
    intro hnil
    have : r0.tid ∈ (os.filter
        (fun r => r.zoid == z && 0 < r.tid && r.tid ≤ pack_tid)).map (·.tid) :=
      (selectKeepTid_mem_iff os z pack_tid r0.tid).mpr ⟨r0, hr0, hz0, rfl, hp0, hb0⟩
    rw [hnil] at this
    exact absurd this (List.not_mem_nil _)
  cases hh : selectKeepTid os z pack_tid with
  | none =>
    exact absurd ((head?_sortDescBy_int_none _).mp hh) hne
  | some k =>
    obtain ⟨hkmem, hkmax⟩ := head?_sortDescBy_int _ hh
    obtain ⟨r, hr, hz, ht, h1, h2⟩ := (selectKeepTid_mem_iff os z pack_tid k).mp hkmem
    refine ⟨k, rfl, ⟨r, hr, hz, ht, h1, h2⟩, ?_⟩
    intro s hs hsz hsp hsb
    exact hkmax s.tid ((selectKeepTid_mem_iff os z pack_tid s.tid).mpr
      ⟨s, hs, hsz, rfl, hsp, hsb⟩)

/-- C4: pre-pack without GC produces exactly one `pack_object` row per
distinct zoid of `object_state` with `tid ≤ pack_tid`, each with
`keep = TRUE`, and `keep_tid` set to the greatest tid of `object_state` for
that zoid with `tid ≤ pack_tid` (the newest retained revision). Stated for
databases whose `object_state` tids are positive, as the schema reserves
`tid ≤ 0`. -/
theorem pre_pack_without_gc_spec (db : DB) (pack_tid : Int)
    (htid : ∀ r ∈ db.object_state, 0 < r.tid) :
    ((prePackWithoutGc db pack_tid).map PackObjRow.zoid).Nodup ∧
    (∀ z : Nat, z ∈ (prePackWithoutGc db pack_tid).map PackObjRow.zoid ↔
        ∃ r ∈ db.object_state, r.zoid = z ∧ r.tid ≤ pack_tid) ∧
    (∀ p ∈ prePackWithoutGc db pack_tid, p.keep = true) ∧
    (∀ p ∈ prePackWithoutGc db pack_tid, ∃ k : Int,
        p.keep_tid = some k ∧
        (∃ r ∈ db.object_state, r.zoid = p.zoid ∧ r.tid = k ∧ k ≤ pack_tid) ∧
        ∀ r ∈ db.object_state, r.zoid = p.zoid → r.tid ≤ pack_tid → r.tid ≤ k) := by
  have hres : prePackWithoutGc db pack_tid =
      (((db.object_state.filter (fun r => r.tid ≤ pack_tid)).map
          StateRow.zoid).dedup).map
        (fun z => ⟨z, true, selectKeepTid db.object_state z pack_tid⟩) := by
    simp only [prePackWithoutGc, List.map_map]
    rfl
  have hzoids : (prePackWithoutGc db pack_tid).map PackObjRow.zoid =
      ((db.object_state.filter (fun r => r.tid ≤ pack_tid)).map
          StateRow.zoid).dedup := by
    rw [hres, List.map_map]
    exact List.map_id _
  refine ⟨?_, ?_, ?_, ?_⟩
  · rw [hzoids]
    exact List.nodup_dedup _
  · intro z
    rw [hzoids]
    simp only [List.mem_dedup, List.mem_map, List.mem_filter, decide_eq_true_eq]
    constructor
    · rintro ⟨r, ⟨hr, hb⟩, rfl⟩
      exact ⟨r, hr, rfl, hb⟩
    · rintro ⟨r, hr, rfl, hb⟩
      exact ⟨r, ⟨hr, hb⟩, rfl⟩
  · intro p hp
    rw [hres] at hp
    obtain ⟨z, _, rfl⟩ := List.mem_map.mp hp
    rfl
  · intro p hp
    rw [hres] at hp
    obtain ⟨z, hz, rfl⟩ := List.mem_map.mp hp
    simp only [List.mem_dedup, List.mem_map, List.mem_filter,
      decide_eq_true_eq] at hz
    obtain ⟨r, ⟨hr, hb⟩, rfl⟩ := hz
    obtain ⟨k, hk, ⟨s, hs, hsz, hst, _, hsb⟩, hmax⟩ :=
      selectKeepTid_spec db.object_state r.zoid pack_tid
        ⟨r, hr, rfl, htid r hr, hb⟩
    exact ⟨k, hk, ⟨s, hs, hsz, hst, hsb⟩,
      fun s hsm hsz hsb => hmax s hsm hsz (htid s hsm) hsb⟩

/-- A concrete instantiation of `pre_pack_without_gc_spec`: the row seeded
for zoid 1 carries the greatest tid at or below the horizon as `keep_tid`. -/
theorem pre_pack_without_gc_spec_witness :
    ∃ k : Int, (⟨1, true, some 10⟩ : PackObjRow).keep_tid = some k ∧
      (∃ r ∈ exDB.object_state,
          r.zoid = (⟨1, true, some 10⟩ : PackObjRow).zoid ∧ r.tid = k ∧ k ≤ 25) ∧
      ∀ r ∈ exDB.object_state,
        r.zoid = (⟨1, true, some 10⟩ : PackObjRow).zoid → r.tid ≤ 25 → r.tid ≤ k :=
  (pre_pack_without_gc_spec exDB 25 (by decide)).2.2.2 ⟨1, true, some 10⟩ (by decide)

/-! ## Pre-pack with garbage collection: seeding phase -/

/-- The `pack_object`-seeding script of `_pre_pack_with_gc`: truncate,
insert `(zoid, FALSE)` for every distinct zoid of `object_state` with
`tid <= pack_tid`, then three keep-promotions: the root zoid 0; zoids with
`current_object.tid > pack_tid`; zoids referenced as `to_zoid` by an
`object_ref` row with `tid > pack_tid`. -/
def seedPackObject (db : DB) (pack_tid : Int) : List PackObjRow :=
  let zoids := ((db.object_state.filter
      (fun r => r.tid ≤ pack_tid)).map StateRow.zoid).dedup
  let po0 := zoids.map (fun z => (⟨z, false, none⟩ : PackObjRow))
  let po1 := po0.map (fun p => if p.zoid == 0 then { p with keep := true } else p)
  let po2 := po1.map (fun p =>
      if !p.keep && db.current_object.any (fun c => c.zoid == p.zoid && pack_tid < c.tid)
      then { p with keep := true } else p)
  let po3 := po2.map (fun p =>
      if !p.keep && db.object_ref.any (fun r => r.to_zoid == p.zoid && pack_tid < r.tid)
      then { p with keep := true } else p)
  po3

/-- The combined keep decision made by the three seeding promotions. -/
def seedKeep (db : DB) (pack_tid : Int) (z : Nat) : Bool :=
  z == 0 || db.current_object.any (fun c => c.zoid == z && pack_tid < c.tid)
    || db.object_ref.any (fun r => r.to_zoid == z && pack_tid < r.tid)

theorem seedPackObject_eq (db : DB) (pack_tid : Int) :
    seedPackObject db pack_tid =
      (((db.object_state.filter (fun r => r.tid ≤ pack_tid)).map
          StateRow.zoid).dedup).map
        (fun z => ⟨z, seedKeep db pack_tid z, none⟩) := by
  simp only [seedPackObject, List.map_map]
  apply List.map_congr_left
  intro z _
  simp only [Function.comp_apply, seedKeep]
  by_cases h0 : z = 0
  · simp [h0]
  · by_cases h1 : db.current_object.any (fun c => c.zoid == z && pack_tid < c.tid)
    · simp [h0, h1]
    · by_cases h2 : db.object_ref.any (fun r => r.to_zoid == z && pack_tid < r.tid)
      · simp [h0, h1, h2]
      · simp [h0, h1, h2]

/-- C2: the seeding phase of pre-pack with GC yields one `pack_object` row
per distinct zoid of `object_state` with `tid ≤ pack_tid`; a row's `keep` is
`TRUE` exactly when its zoid is 0, or has a `current_object` row with
`tid > pack_tid`, or occurs as `to_zoid` of an `object_ref` row with
`tid > pack_tid`; all remaining rows keep `keep = FALSE`, and no `keep_tid`
is assigned. -/
theorem seed_pack_object_spec (db : DB) (pack_tid : Int) :
    ((seedPackObject db pack_tid).map PackObjRow.zoid).Nodup ∧
    (∀ z : Nat, z ∈ (seedPackObject db pack_tid).map PackObjRow.zoid ↔
        ∃ r ∈ db.object_state, r.zoid = z ∧ r.tid ≤ pack_tid) ∧
    (∀ p ∈ seedPackObject db pack_tid, p.keep_tid = none) ∧
    (∀ p ∈ seedPackObject db pack_tid,
        p.keep = true ↔
          (p.zoid = 0 ∨
           (∃ c ∈ db.current_object, c.zoid = p.zoid ∧ pack_tid < c.tid) ∨
           (∃ r ∈ db.object_ref, r.to_zoid = p.zoid ∧ pack_tid < r.tid))) := by
  have hzoids : (seedPackObject db pack_tid).map PackObjRow.zoid =
      ((db.object_state.filter (fun r => r.tid ≤ pack_tid)).map
          StateRow.zoid).dedup := by
    rw [seedPackObject_eq, List.map_map]
    exact List.map_id _
  refine ⟨?_, ?_, ?_, ?_⟩
  · rw [hzoids]
    exact List.nodup_dedup _
  · intro z
    rw [hzoids]
    simp only [List.mem_dedup, List.mem_map, List.mem_filter, decide_eq_true_eq]
    constructor
    · rintro ⟨r, ⟨hr, hb⟩, rfl⟩
      exact ⟨r, hr, rfl, hb⟩
    · rintro ⟨r, hr, rfl, hb⟩
      exact ⟨r, ⟨hr, hb⟩, rfl⟩
  · intro p hp
    rw [seedPackObject_eq] at hp
    obtain ⟨z, _, rfl⟩ := List.mem_map.mp hp
    rfl
  · intro p hp
    rw [seedPackObject_eq] at hp
    obtain ⟨z, _, rfl⟩ := List.mem_map.mp hp
    simp only [seedKeep, Bool.or_eq_true, beq_iff_eq, List.any_eq_true,
      Bool.and_eq_true, decide_eq_true_eq]
    constructor
    · rintro ((h0 | h1) | h2)
      · exact Or.inl h0
      · exact Or.inr (Or.inl h1)
      · exact Or.inr (Or.inr h2)
    · rintro (h0 | h1 | h2)
      · exact Or.inl (Or.inl h0)
      · exact Or.inl (Or.inr h1)
      · exact Or.inr h2

/-! ## Object-history iteration -/

/-- One tuple yielded by `iter_object_history`:
`(tid, username, description, extension, OCTET_LENGTH(state))`;
the length of a NULL state is NULL. -/
structure HistEntry where
  tid : Int
  username : String
  description : String
  ext : String
  size : Option Nat
  deriving DecidableEq, Repr

/-- The rows contributed by one `transaction` row to the join
`transaction JOIN object_state USING (tid) WHERE zoid = oid AND
packed = FALSE`. -/
def histInner (os : List StateRow) (oid : Nat) (t : TxnRow) : List HistEntry :=
  (os.filter (fun o => o.tid == t.tid && o.zoid == oid && !t.packed)).map
    (fun o => ⟨t.tid, t.username, t.description, t.ext, o.state.map List.length⟩)

/-- The unordered join underlying `iter_object_history`. -/
def histJoin (db : DB) (oid : Nat) : List HistEntry :=
  db.txn.flatMap (histInner db.object_state oid)

/-- `iter_object_history`: first `SELECT 1 FROM current_object WHERE
zoid = oid` and raise `KeyError(oid)` when no row comes back; otherwise
return the join ordered by descending tid. -/
def iter_object_history (db : DB) (oid : Nat) : Except Nat (List HistEntry) :=
  if (db.current_object.filter (fun c => c.zoid == oid)) = [] then
    Except.error oid
  else
    Except.ok (sortDescBy HistEntry.tid (histJoin db oid))

theorem nodup_of_length_le_one {α : Type} {l : List α} (h : l.length ≤ 1) :
    l.Nodup := by
  match l, h with
  | [], _ => exact List.nodup_nil
  | [a], _ => simp

/-- A filter whose predicate pins down the key selects at most one row of a
key-distinct list. -/
theorem filter_keyconst_length_le_one {α β : Type} (key : α → β) (p : α → Bool)
    (hsame : ∀ a b, p a = true → p b = true → key a = key b) :
    ∀ l : List α, (l.map key).Nodup → (l.filter p).length ≤ 1 := by
  intro l
  induction l with
  | nil => intro _; simp
  | cons a l' ih =>
    intro hnd
    simp only [List.map_cons, List.nodup_cons] at hnd
    by_cases hpa : p a = true
    · rw [List.filter_cons_of_pos hpa]
      have hfe : l'.filter p = [] := by
        rw [List.filter_eq_nil_iff]
        intro b hb hpb
        exact hnd.1 ((hsame b a hpb hpa) ▸ List.mem_map_of_mem key hb)
      rw [hfe]
      simp
    · rw [List.filter_cons_of_neg (by simpa using hpa)]
      exact ih hnd.2

theorem histInner_tid {os : List StateRow} {oid : Nat} {t : TxnRow}
    {e : HistEntry} (he : e ∈ histInner os oid t) : e.tid = t.tid := by
  obtain ⟨o, _, rfl⟩ := List.mem_map.mp he
  rfl

theorem histInner_length_le_one {os : List StateRow} {oid : Nat} (t : TxnRow)
    (hnd_os : (os.map (fun o => (o.zoid, o.tid))).Nodup) :
    (histInner os oid t).length ≤ 1 := by
  rw [histInner, List.length_map]
  refine filter_keyconst_length_le_one (fun o => (o.zoid, o.tid)) _ ?_ os hnd_os
  intro a b hpa hpb
  simp only [Bool.and_eq_true, beq_iff_eq] at hpa hpb
  simp [hpa.1.1, hpa.1.2, hpb.1.1, hpb.1.2]

/-- In a join against a transaction table with distinct tids and an
`object_state` table with distinct `(zoid, tid)` keys, the yielded tids are
pairwise distinct. -/
theorem histJoin_tids_nodup (os : List StateRow) (oid : Nat) :
    ∀ txns : List TxnRow, (txns.map TxnRow.tid).Nodup →
      (os.map (fun o => (o.zoid, o.tid))).Nodup →
      ((txns.flatMap (histInner os oid)).map HistEntry.tid).Nodup := by
  intro txns
  induction txns with
  | nil => intro _ _; simp
  | cons t ts ih =>
    intro hnd_txn hnd_os
    simp only [List.map_cons, List.nodup_cons] at hnd_txn
    rw [List.flatMap_cons, List.map_append]
    rw [List.nodup_append]
    refine ⟨nodup_of_length_le_one (by
        rw [List.length_map]; exact histInner_length_le_one t hnd_os),
      ih hnd_txn.2 hnd_os, ?_⟩
    intro x hx hy
    obtain ⟨e, he, rfl⟩ := List.mem_map.mp hx
    obtain ⟨e', he', hee⟩ := List.mem_map.mp hy
    obtain ⟨t', ht', het'⟩ := List.mem_flatMap.mp he'
    have h1 : e.tid = t.tid := histInner_tid he
    have h2 : e'.tid = t'.tid := histInner_tid het'
    apply hnd_txn.1
    rw [← h1, ← hee, h2]
    exact List.mem_map_of_mem TxnRow.tid ht'

/-- C6: `iter_object_history(oid)` fails with `NotFound` (the `KeyError`)
exactly when no `current_object` row with `zoid = oid` exists; otherwise it
yields the `(tid, username, description, extension, OCTET_LENGTH(state))`
tuples of the `transaction ⋈ object_state` join on that oid, excluding
packed transactions, in strictly descending tid order. The embedding is a
pure function of the database, so no state is mutated. Stated for databases
satisfying the schema keys: `transaction.tid` unique and `(zoid, tid)`
unique in `object_state`. -/
theorem iter_object_history_spec (db : DB) (oid : Nat)
    (hnd_txn : (db.txn.map TxnRow.tid).Nodup)
    (hnd_os : (db.object_state.map (fun o => (o.zoid, o.tid))).Nodup) :
    (iter_object_history db oid = Except.error oid ↔
        ∀ c ∈ db.current_object, c.zoid ≠ oid) ∧
    ((∃ l, iter_object_history db oid = Except.ok l) ↔
        ∃ c ∈ db.current_object, c.zoid = oid) ∧
    (∀ l, iter_object_history db oid = Except.ok l →
        ((l.map HistEntry.tid).Pairwise (fun a b => b < a) ∧
         ∀ e : HistEntry, e ∈ l ↔ ∃ t ∈ db.txn, ∃ o ∈ db.object_state,
            o.zoid = oid ∧ o.tid = t.tid ∧ t.packed = false ∧
            e = ⟨t.tid, t.username, t.description, t.ext,
                 o.state.map List.length⟩)) := by
  have hfilter : (db.current_object.filter (fun c => c.zoid == oid)) = [] ↔
      ∀ c ∈ db.current_object, c.zoid ≠ oid := by
    rw [List.filter_eq_nil_iff]
    simp
  refine ⟨?_, ?_, ?_⟩
  · rw [iter_object_history]
    by_cases hc : (db.current_object.filter (fun c => c.zoid == oid)) = []
    · rw [if_pos hc]
      exact ⟨fun _ => hfilter.mp hc, fun _ => rfl⟩
    · rw [if_neg hc]
      constructor
      · intro h
        exact absurd h (by simp)
      · intro h
        exact absurd (hfilter.mpr h) hc
  · rw [iter_object_history]
    by_cases hc : (db.current_object.filter (fun c => c.zoid == oid)) = []
    · simp only [if_pos hc]
      constructor
      · rintro ⟨l, hl⟩
        exact absurd hl (by simp)
      · rintro ⟨c, hcm, hcz⟩
        exact absurd ((hfilter.mp hc) c hcm) (by simp [hcz])
    · simp only [if_neg hc]
      constructor
      · intro _
        by_contra hno
        push_neg at hno
        exact hc (hfilter.mpr (fun c hcm => hno c hcm))
      · intro _
        exact ⟨_, rfl⟩
  · intro l hl
    rw [iter_object_history] at hl
    by_cases hc : (db.current_object.filter (fun c => c.zoid == oid)) = []
    · rw [if_pos hc] at hl
      exact absurd hl (by simp)
    · rw [if_neg hc] at hl
      have hleq : l = sortDescBy HistEntry.tid (histJoin db oid) :=
        (Except.ok.inj hl).symm
      subst hleq
      have hperm : (sortDescBy HistEntry.tid (histJoin db oid)).Perm
          (histJoin db oid) := sortDescBy_perm _ _
      constructor
      · have hsorted := sortDescBy_sorted HistEntry.tid (histJoin db oid)
        have hmapped : ((sortDescBy HistEntry.tid (histJoin db oid)).map
            HistEntry.tid).Pairwise (fun a b => b ≤ a) := by
          rw [List.pairwise_map]
          exact hsorted
        have hnd : ((sortDescBy HistEntry.tid (histJoin db oid)).map
            HistEntry.tid).Nodup := by
          refine ((hperm.map HistEntry.tid).nodup_iff).mpr ?_
          exact histJoin_tids_nodup db.object_state oid db.txn hnd_txn hnd_os
        refine (hmapped.and hnd).imp ?_
        intro a b hab
        exact lt_of_le_of_ne hab.1 (Ne.symm hab.2)
      · intro e
        rw [hperm.mem_iff]
        simp only [histJoin, List.mem_flatMap, histInner, List.mem_map,
          List.mem_filter, Bool.and_eq_true, beq_iff_eq, Bool.not_eq_true']
        constructor
        · rintro ⟨t, ht, o, ⟨ho, ⟨hot, hoz⟩, hp⟩, he⟩
          exact ⟨t, ht, o, ho, hoz, hot, hp, he.symm⟩
        · rintro ⟨t, ht, o, ho, hoz, hot, hp, he⟩
          exact ⟨t, ht, o, ⟨ho, ⟨hot, hoz⟩, hp⟩, he.symm⟩

/-- A concrete instantiation of `iter_object_history_spec`: on the example
database, oid 1 exists, so iteration succeeds. -/
theorem iter_object_history_spec_witness :
    (∃ l, iter_object_history exDB 1 = Except.ok l) ↔
      ∃ c ∈ exDB.current_object, c.zoid = 1 :=
  (iter_object_history_spec exDB 1 (by decide) (by decide)).2.1

/-! ## ScriptRunner: statement splitting (`_run_script`) -/

/-- The line preprocessing of `_run_script`: split the script on newlines,
strip each line, and skip blank lines and `--` comment lines. -/
def procLines (script : String) : List String :=
  ((script.splitOn "\n").map String.trim).filter
    (fun l => !(l == "" || l.startsWith "--"))

/-- `'\n'.join(lines)`. -/
def joined (g : List String) : String := String.intercalate "\n" g

/-- The accumulator loop of `_run_script`: lines are collected until one
ends in `;`; that semicolon is stripped, the collected lines are joined and
emitted as one statement; a non-empty trailing accumulation is emitted as a
final statement. -/
def stmtsAux : List String → List String → List String
  | acc, [] => if acc.isEmpty then [] else [joined acc]
  | acc, l :: ls =>
      if l.endsWith ";" then
        joined (acc ++ [l.dropRight 1]) :: stmtsAux [] ls
      else stmtsAux (acc ++ [l]) ls

/-- The statements submitted for execution by `_run_script`, in order. -/
def runScriptStmts (script : String) : List String :=
  stmtsAux [] (procLines script)

/-- Declarative description of the statement boundaries: a group ends
exactly at a line whose last character is `;` (which is dropped); a final
group without terminator is still a group. -/
def lineGroups : List String → List (List String)
  | [] => []
  | l :: ls =>
      if l.endsWith ";" then [l.dropRight 1] :: lineGroups ls
      else
        match lineGroups ls with
        | [] => [[l]]
        | g :: gs => (l :: g) :: gs

theorem stmtsAux_eq_lineGroups (L : List String) : ∀ acc : List String,
    stmtsAux acc L =
      match lineGroups L with
      | [] => if acc.isEmpty then [] else [joined acc]
      | g :: gs => joined (acc ++ g) :: gs.map joined := by
  induction L with
  | nil =>
    intro acc
    rfl
  | cons l ls ih =>
    intro acc
    by_cases hl : l.endsWith ";"
    · rw [stmtsAux, if_pos hl, lineGroups, if_pos hl]
      rw [ih []]
      cases hgs : lineGroups ls with
      | nil => simp [joined]
      | cons g gs => simp [joined]
    · rw [stmtsAux, if_neg hl, lineGroups, if_neg hl]
      rw [ih (acc ++ [l])]
      cases hgs : lineGroups ls with
      | nil => simp
      | cons g gs => simp

/-- C10: `_run_script` recognises a statement boundary exactly at a
(stripped, non-blank, non-comment) line whose last character is `;`: the
executed statements are the newline-joins of the groups delimited by such
lines, with the terminating semicolon removed and a trailing unterminated
group still submitted; a semicolon that is not the last character of a line
never splits a statement. -/
theorem run_script_split_spec (script : String) :
    runScriptStmts script = (lineGroups (procLines script)).map joined := by
  rw [runScriptStmts, stmtsAux_eq_lineGroups]
  cases hgs : lineGroups (procLines script) with
  | nil => rfl
  | cons g gs => simp

/-! ## ScriptRunner: single-statement execution (`_run_script_stmt`) -/

/-- A generic SQL template: literal fragments interleaved with named
template variables (the `%(name)s` occurrences resolved against
`_script_vars`). -/
inductive Frag where
  | lit (s : String)
  | var (v : String)
  deriving DecidableEq, Repr

/-- Resolve one fragment against a substitution table. -/
def renderFrag (vars : String → String) : Frag → String
  | .lit s => s
  | .var v => vars v

/-- `generic_stmt % self._script_vars`. -/
def render (vars : String → String) (tmpl : List Frag) : String :=
  String.join (tmpl.map (renderFrag vars))

/-- `Adapter._script_vars`: the PostgreSQL/MySQL substitutions. Note the
parameter names map to driver placeholders, not to parameter values. -/
def script_vars : String → String
  | "TRUE" => "TRUE"
  | "FALSE" => "FALSE"
  | "OCTET_LENGTH" => "OCTET_LENGTH"
  | "oid" => "%(oid)s"
  | "tid" => "%(tid)s"
  | "pack_tid" => "%(pack_tid)s"
  | "undo_tid" => "%(undo_tid)s"
  | "self_tid" => "%(self_tid)s"
  | v => v

/-- A driver-level error. -/
structure DriverErr where
  code : Nat
  msg : String
  deriving DecidableEq, Repr

/-- One emitted log record. -/
structure LogEntry where
  level : String
  stmtLogged : String
  paramsLogged : List (String × Int)
  deriving DecidableEq, Repr

/-- `_run_script_stmt`: substitute the template variables, execute, and on
driver error emit one WARNING log record carrying the substituted statement
(and the parameter map) before re-raising the error unchanged. -/
def run_script_stmt
    (exec : String → List (String × Int) → Except DriverErr Unit)
    (generic_stmt : List Frag) (generic_params : List (String × Int)) :
    Except DriverErr Unit × List LogEntry :=
  let stmt := render script_vars generic_stmt
  match exec stmt generic_params with
  | .ok _ => (.ok (), [])
  | .error e => (.error e, [⟨"WARNING", stmt, generic_params⟩])

/-- C9: when the driver raises during single-statement execution, the engine
emits exactly one WARNING record whose logged statement is the fully
template-substituted statement — computed from the template and
`_script_vars` alone, hence containing no parameter values — and re-raises
the driver error unchanged; on success nothing is logged, and in no case is
the execution retried (exactly one driver call decides the outcome). -/
theorem run_script_stmt_spec
    (exec : String → List (String × Int) → Except DriverErr Unit)
    (generic_stmt : List Frag) (params : List (String × Int)) :
    (∀ e : DriverErr,
        exec (render script_vars generic_stmt) params = .error e →
        run_script_stmt exec generic_stmt params =
          (.error e, [⟨"WARNING", render script_vars generic_stmt, params⟩])) ∧
    (exec (render script_vars generic_stmt) params = .ok () →
        run_script_stmt exec generic_stmt params = (.ok (), [])) ∧
    (∀ entry ∈ (run_script_stmt exec generic_stmt params).2,
        entry.level = "WARNING" ∧
        entry.stmtLogged = render script_vars generic_stmt) := by
  refine ⟨?_, ?_, ?_⟩
  · intro e he
    rw [run_script_stmt]
    rw [he]
  · intro hok
    rw [run_script_stmt]
    rw [hok]
  · intro entry hentry
    rw [run_script_stmt] at hentry
    cases hexec : exec (render script_vars generic_stmt) params with
    | ok u =>
      rw [hexec] at hentry
      exact absurd hentry (by simp)
    | error e =>
      rw [hexec] at hentry
      simp only [List.mem_singleton] at hentry
      rw [hentry]
      exact ⟨rfl, rfl⟩

/-- A concrete instantiation of `run_script_stmt_spec`: a failing driver
call yields the re-raised error and one WARNING record with the substituted
statement. -/
theorem run_script_stmt_spec_witness :
    run_script_stmt (fun _ _ => Except.error ⟨42, "boom"⟩)
        [Frag.lit "DELETE FROM pack_object WHERE keep = ", Frag.var "FALSE"] [] =
      (Except.error ⟨42, "boom"⟩,
       [⟨"WARNING", render script_vars
          [Frag.lit "DELETE FROM pack_object WHERE keep = ", Frag.var "FALSE"], []⟩]) :=
  (run_script_stmt_spec (fun _ _ => Except.error ⟨42, "boom"⟩)
      [Frag.lit "DELETE FROM pack_object WHERE keep = ", Frag.var "FALSE"] []).1
    ⟨42, "boom"⟩ rfl

/-! ## Oracle large-object fetch (`CXOracleScriptRunner.run_lob_stmt`) -/

/-- A result cell: either a streamable LOB handle or inline bytes. -/
inductive Cell where
  | lob (data : List Nat)
  | val (data : List Nat)
  deriving DecidableEq, Repr

/-- `_read_lob`: read a LOB handle into its byte stream; return other
values unchanged. -/
def read_lob : Cell → Cell
  | .lob d => .val d
  | .val d => .val d

/-- A cx_Oracle `DatabaseError` carrying the driver error object; code 1406
is "fetched column value was truncated". -/
structure OraError where
  code : Int
  deriving DecidableEq, Repr

/-- `run_lob_stmt`: with inline LOBs enabled, execute and return the first
row; if the driver reports truncation (ORA-01406), re-execute once with the
statement altered by an appended space (so the statement cache recompiles)
and read each cell of the row through `_read_lob`; re-raise any other error;
return the default when no row is produced. Without inline LOBs, execute
once and read each cell through `_read_lob`. -/
def run_lob_stmt (useInline : Bool)
    (backend : String → Except OraError (List (List Cell)))
    (stmt : String) (dflt : Option (List Cell)) :
    Except OraError (Option (List Cell)) :=
  if useInline then
    match backend stmt with
    | .ok rows =>
        match rows.head? with
        | some row => .ok (some row)
        | none => .ok dflt
    | .error e =>
        if e.code == 1406 then
          match backend (stmt ++ " ") with
          | .ok rows =>
              match rows.head? with
              | some row => .ok (some (row.map read_lob))
              | none => .ok dflt
          | .error e2 => .error e2
        else .error e
  else
    match backend stmt with
    | .ok rows =>
        match rows.head? with
        | some row => .ok (some (row.map read_lob))
        | none => .ok dflt
    | .error e => .error e

/-- C8: in the inline-LOB mode, a truncation error (code 1406) from the
first execution causes exactly one retry, against the altered statement
`stmt ++ " "` (a different string), whose row is read cell-by-cell through
`_read_lob`; an error on the retry — even another truncation — propagates
without further retries; a non-truncation error from the first execution is
re-raised unchanged; and whenever the query produces no row the supplied
default is returned. -/
theorem run_lob_stmt_spec
    (backend : String → Except OraError (List (List Cell)))
    (stmt : String) (dflt : Option (List Cell)) :
    (∀ e : OraError, backend stmt = .error e → e.code = 1406 →
        ((∀ (row : List Cell) (rows : List (List Cell)),
            backend (stmt ++ " ") = .ok (row :: rows) →
            run_lob_stmt true backend stmt dflt = .ok (some (row.map read_lob))) ∧
         (backend (stmt ++ " ") = .ok [] →
            run_lob_stmt true backend stmt dflt = .ok dflt) ∧
         (∀ e2 : OraError, backend (stmt ++ " ") = .error e2 →
            run_lob_stmt true backend stmt dflt = .error e2))) ∧
    (∀ e : OraError, backend stmt = .error e → e.code ≠ 1406 →
        run_lob_stmt true backend stmt dflt = .error e) ∧
    (backend stmt = .ok [] → run_lob_stmt true backend stmt dflt = .ok dflt) ∧
    (∀ (row : List Cell) (rows : List (List Cell)),
        backend stmt = .ok (row :: rows) →
        run_lob_stmt true backend stmt dflt = .ok (some row)) ∧
    stmt ++ " " ≠ stmt := by
  refine ⟨?_, ?_, ?_, ?_, ?_⟩
  · intro e he hcode
    have hc : (e.code == 1406) = true := by simp [hcode]
    refine ⟨?_, ?_, ?_⟩
    · intro row rows hretry
      simp [run_lob_stmt, he, hc, hretry]
    · intro hretry
      simp [run_lob_stmt, he, hc, hretry]
    · intro e2 hretry
      simp [run_lob_stmt, he, hc, hretry]
  · intro e he hcode
    have hc : (e.code == 1406) = false := by simp [hcode]
    simp [run_lob_stmt, he, hc]
  · intro hok
    simp [run_lob_stmt, hok]
  · intro row rows hok
    simp [run_lob_stmt, hok]
  · intro h
    have hlen := congrArg String.length h
    simp only [String.length_append] at hlen
    have hone : (" " : String).length = 1 := rfl
    omega

/-- A concrete instantiation of `run_lob_stmt_spec`: a truncation error on
the probe statement leads to the retried row read through `_read_lob`. -/
theorem run_lob_stmt_spec_witness :
    run_lob_stmt true
        (fun s => if s = "SELECT state" then Except.error ⟨1406⟩
                  else Except.ok [[Cell.lob [3, 4]]])
        "SELECT state" none =
      Except.ok (some [Cell.val [3, 4]]) :=
  ((run_lob_stmt_spec
      (fun s => if s = "SELECT state" then Except.error ⟨1406⟩
                else Except.ok [[Cell.lob [3, 4]]])
      "SELECT state" none).1 ⟨1406⟩ (by simp) rfl).1 [Cell.lob [3, 4]] []
    (by simp)

/-! ## Pre-pack with garbage collection: iterative reachability closure -/

/-- The state threaded through the closure loop of `_pre_pack_with_gc`. -/
structure GCState where
  pack_object : List PackObjRow
  object_ref : List RefRow
  object_refs_added : List RefsAddedRow
  deriving DecidableEq, Repr

/-- `_add_refs_for_tid`: the `object_ref` rows extracted from all states of
one transaction; NULL or empty states contribute no edges. -/
def refsForTid (os : List StateRow) (getRefs : List Nat → List Nat) (t : Int) :
    List RefRow :=
  (os.filter (fun r => r.tid == t)).flatMap (fun r =>
    match r.state with
    | none => []
    | some bytes =>
        if bytes = [] then []
        else (getRefs bytes).map (fun dst => ⟨r.zoid, t, dst⟩))

/-- The `keep_tid` assignment of one loop iteration:
`UPDATE pack_object SET keep_tid = (select_keep_tid)
WHERE keep = TRUE AND keep_tid IS NULL`. -/
def setKeepTids (os : List StateRow) (pack_tid : Int)
    (po : List PackObjRow) : List PackObjRow :=
  po.map (fun p =>
    if p.keep && p.keep_tid.isNone then
      { p with keep_tid := selectKeepTid os p.zoid pack_tid }
    else p)

/-- The promotion `UPDATE pack_object SET keep = TRUE WHERE keep = FALSE AND
zoid IN (SELECT DISTINCT to_zoid FROM object_ref JOIN temp_pack_visit
USING (zoid))`, for an abstract promotion predicate. -/
def promoteStep (c : Nat → Bool) (po : List PackObjRow) : List PackObjRow :=
  po.map (fun p => if !p.keep && c p.zoid then { p with keep := true } else p)

/-- `cursor.rowcount` of the promotion UPDATE: the number of matched
(keep = FALSE) rows. -/
def promoteCount (c : Nat → Bool) (po : List PackObjRow) : Nat :=
  po.countP (fun p => !p.keep && c p.zoid)

/-- One iteration of the closure loop: collect the frontier
(`temp_pack_visit`), assign `keep_tid` to the newly kept rows, materialise
the references of their tids (`_fill_pack_object_refs`), then promote every
dead zoid referenced from the frontier. Returns the new state and the
promotion rowcount the loop tests. -/
def iterBody (os : List StateRow) (pack_tid : Int)
    (getRefs : List Nat → List Nat) (s : GCState) : GCState × Nat :=
  let visit := (s.pack_object.filter
      (fun p => p.keep && p.keep_tid.isNone)).map PackObjRow.zoid
  let po1 := setKeepTids os pack_tid s.pack_object
  let newTids := ((po1.filterMap PackObjRow.keep_tid).dedup).filter
      (fun t => !s.object_refs_added.any (fun a => a.tid == t))
  let oref := s.object_ref ++ newTids.flatMap (refsForTid os getRefs)
  let added := s.object_refs_added ++ newTids.map RefsAddedRow.mk
  let promote := fun z : Nat =>
      oref.any (fun r => r.to_zoid == z && visit.contains r.zoid)
  (⟨promoteStep promote po1, oref, added⟩, promoteCount promote po1)

/-- The `while True` closure loop, exiting when the promotion rowcount is
zero; `none` means the fuel was exhausted before the exit test succeeded. -/
def closureLoop (os : List StateRow) (pack_tid : Int)
    (getRefs : List Nat → List Nat) : Nat → GCState → Option GCState
  | 0, _ => none
  | fuel + 1, s =>
      let r := iterBody os pack_tid getRefs s
      if r.2 = 0 then some r.1 else closureLoop os pack_tid getRefs fuel r.1

/-- The number of `pack_object` rows with `keep = TRUE`. -/
def trueCount (po : List PackObjRow) : Nat := po.countP (fun p => p.keep)

/-- The number of `pack_object` rows with `keep = FALSE`. -/
def falseCount (po : List PackObjRow) : Nat := po.countP (fun p => !p.keep)

theorem countP_split {α : Type} (q c : α → Bool) (l : List α) :
    l.countP q =
      l.countP (fun a => q a && c a) + l.countP (fun a => q a && !c a) := by
  induction l with
  | nil => simp
  | cons a t ih =>
    simp only [List.countP_cons]
    cases hq : q a <;> cases hc : c a <;> simp [hq, hc] <;> omega

theorem trueCount_setKeepTids (os : List StateRow) (pack_tid : Int)
    (po : List PackObjRow) :
    trueCount (setKeepTids os pack_tid po) = trueCount po := by
  rw [trueCount, setKeepTids, List.countP_map, trueCount]
  apply List.countP_congr
  intro p _
  simp only [Function.comp_apply]
  by_cases h : (p.keep && p.keep_tid.isNone) = true
  · rw [if_pos h]
  · rw [if_neg h]

theorem falseCount_setKeepTids (os : List StateRow) (pack_tid : Int)
    (po : List PackObjRow) :
    falseCount (setKeepTids os pack_tid po) = falseCount po := by
  rw [falseCount, setKeepTids, List.countP_map, falseCount]
  apply List.countP_congr
  intro p _
  simp only [Function.comp_apply]
  by_cases h : (p.keep && p.keep_tid.isNone) = true
  · rw [if_pos h]
  · rw [if_neg h]

theorem keep_promoteStep (c : Nat → Bool) (p : PackObjRow) :
    (if !p.keep && c p.zoid then { p with keep := true } else p).keep =
      (p.keep || c p.zoid) := by
  cases hk : p.keep <;> cases hc : c p.zoid <;> simp [hk, hc]

/-- Each promotion strictly adds the rowcount to the kept total. -/
theorem trueCount_promoteStep (c : Nat → Bool) (po : List PackObjRow) :
    trueCount (promoteStep c po) = trueCount po + promoteCount c po := by
  rw [trueCount, promoteStep, List.countP_map]
  have h1 : po.countP
      ((fun p : PackObjRow => p.keep) ∘
        (fun p => if !p.keep && c p.zoid then { p with keep := true } else p)) =
      po.countP (fun p => p.keep || c p.zoid) := by
    apply List.countP_congr
    intro p _
    simp only [Function.comp_apply]
    rw [keep_promoteStep]
  rw [h1, countP_split (fun p : PackObjRow => p.keep || c p.zoid)
      (fun p : PackObjRow => p.keep) po]
  congr 1
  · rw [trueCount]
    apply List.countP_congr
    intro p _
    cases hk : p.keep <;> cases hc : c p.zoid <;> simp [hk, hc]
  · rw [promoteCount]
    apply List.countP_congr
    intro p _
    cases hk : p.keep <;> cases hc : c p.zoid <;> simp [hk, hc]

/-- Each promotion removes exactly the rowcount from the dead total. -/
theorem falseCount_promoteStep (c : Nat → Bool) (po : List PackObjRow) :
    falseCount po = promoteCount c po + falseCount (promoteStep c po) := by
  have h1 : falseCount (promoteStep c po) =
      po.countP (fun p => !p.keep && !(c p.zoid)) := by
    rw [falseCount, promoteStep, List.countP_map]
    apply List.countP_congr
    intro p _
    simp only [Function.comp_apply]
    cases hk : p.keep <;> cases hc : c p.zoid <;> simp [hk, hc]
  rw [h1, falseCount, promoteCount,
    countP_split (fun p : PackObjRow => !p.keep) (fun p : PackObjRow => c p.zoid) po]

/-- One loop iteration moves exactly its rowcount from dead to kept. -/
theorem iterBody_falseCount (os : List StateRow) (pack_tid : Int)
    (getRefs : List Nat → List Nat) (s : GCState) :
    falseCount s.pack_object =
      (iterBody os pack_tid getRefs s).2 +
        falseCount (iterBody os pack_tid getRefs s).1.pack_object := by
  simp only [iterBody]
  rw [show falseCount s.pack_object =
      falseCount (setKeepTids os pack_tid s.pack_object) from
    (falseCount_setKeepTids os pack_tid s.pack_object).symm]
  exact falseCount_promoteStep _ _

theorem iterBody_trueCount (os : List StateRow) (pack_tid : Int)
    (getRefs : List Nat → List Nat) (s : GCState) :
    trueCount (iterBody os pack_tid getRefs s).1.pack_object =
      trueCount s.pack_object + (iterBody os pack_tid getRefs s).2 := by
  simp only [iterBody]
  rw [show trueCount s.pack_object =
      trueCount (setKeepTids os pack_tid s.pack_object) from
    (trueCount_setKeepTids os pack_tid s.pack_object).symm]
  exact trueCount_promoteStep _ _

/-- Fuel exceeding the dead-row count suffices for the loop to exit. -/
theorem closureLoop_isSome_of_fuel (os : List StateRow) (pack_tid : Int)
    (getRefs : List Nat → List Nat) :
    ∀ (fuel : Nat) (s : GCState), falseCount s.pack_object < fuel →
      (closureLoop os pack_tid getRefs fuel s).isSome := by
  intro fuel
  induction fuel with
  | zero =>
    intro s h
    omega
  | succ n ih =>
    intro s h
    rw [closureLoop]
    by_cases hz : (iterBody os pack_tid getRefs s).2 = 0
    · simp [hz]
    · simp only [hz, if_neg hz]
      apply ih
      have heq := iterBody_falseCount os pack_tid getRefs s
      omega

/-- C3: the closure loop of pre-pack with GC terminates. `pack_object` is a
finite list; an iteration whose promotion rowcount is nonzero strictly
increases the number of `keep = TRUE` rows; and with `pack_object` free of
duplicate zoids the loop reaches its exit test successfully within
|distinct oids in pack_object| productive iterations — fuel one larger than
that count is never exhausted. -/
theorem closure_loop_terminates (os : List StateRow) (pack_tid : Int)
    (getRefs : List Nat → List Nat) (s : GCState)
    (hnd : (s.pack_object.map PackObjRow.zoid).Nodup) :
    (∀ s' : GCState, (iterBody os pack_tid getRefs s').2 ≠ 0 →
        trueCount s'.pack_object <
          trueCount (iterBody os pack_tid getRefs s').1.pack_object) ∧
    (closureLoop os pack_tid getRefs
        ((s.pack_object.map PackObjRow.zoid).dedup.length + 1) s).isSome := by
  constructor
  · intro s' hne
    have heq := iterBody_trueCount os pack_tid getRefs s'
    omega
  · apply closureLoop_isSome_of_fuel
    have hdedup : (s.pack_object.map PackObjRow.zoid).dedup =
        s.pack_object.map PackObjRow.zoid := List.dedup_eq_self.mpr hnd
    rw [hdedup, List.length_map]
    have hle : falseCount s.pack_object ≤ s.pack_object.length :=
      List.countP_le_length _
    omega

/-- A small starting state for the closure loop. -/
def exGC : GCState where
  pack_object := [⟨0, true, none⟩, ⟨2, false, none⟩, ⟨3, false, none⟩]
  object_ref := [⟨0, 10, 2⟩, ⟨2, 10, 3⟩]
  object_refs_added := [⟨10⟩]

/-- A concrete instantiation of `closure_loop_terminates`: on a three-row
working set the loop exits within the claimed bound. -/
theorem closure_loop_terminates_witness :
    (closureLoop [⟨0, 10, 0, some [2]⟩, ⟨2, 10, 0, some [3]⟩] 15 (fun b => b)
        ((exGC.pack_object.map PackObjRow.zoid).dedup.length + 1) exGC).isSome :=
  (closure_loop_terminates [⟨0, 10, 0, some [2]⟩, ⟨2, 10, 0, some [3]⟩] 15
      (fun b => b) exGC (by decide)).2

end RelStorage
